import Mathlib

/-!
Verification of `tools/check-balance-sync.py`, a balance-sync checker that
compares default values extracted from a web-simulator HTML document against a
nested configuration export.

Shallow embedding conventions:
* Python/JSON values are modelled by the inductive type `PyVal`; Python `None`
  (both the JSON `null` literal and the absence signal returned by `dict.get`)
  is the constructor `PyVal.none`.
* Python floats are modelled by rationals (`ℚ`); every numeric literal and
  arithmetic operation appearing in the checker is exact at this granularity.
* `int(...)` and `float(...)` string parsing are modelled on ASCII input
  (optional surrounding whitespace, optional sign, decimal digits, and for
  floats an optional fractional part and exponent); this covers every string
  the checker's claims exercise.
* Fallible operations (list indexing, parsing, `float(...)` coercion) return
  `Option`; an uncaught exception of the script is modelled as `Option.none`
  at the orchestrator level.
-/

/-- A Python/JSON value as handled by the script. `PyVal.none` models Python
`None` (JSON `null` and the absence signal alike). -/
inductive PyVal where
  | none
  | bool (b : Bool)
  | num (q : ℚ)
  | str (s : String)
  | list (xs : List PyVal)
  | dict (kvs : List (String × PyVal))

/-- Python whitespace characters (ASCII subset of `str.strip`). -/
def pyWs (c : Char) : Bool :=
  c = ' ' || c = '\t' || c = '\n' || c = '\r' || c = Char.ofNat 11 || c = Char.ofNat 12

/-- Numeric value of a list of decimal digit characters. -/
def digitsVal (l : List Char) : ℕ :=
  l.foldl (fun a c => a * 10 + (c.toNat - 48)) 0

/-- A nonempty all-digit string parsed as a natural number, else `none`. -/
def parseNatDigits (l : List Char) : Option ℕ :=
  if l ≠ [] ∧ l.all Char.isDigit then some (digitsVal l) else Option.none

/-- Sign handling of Python `int(str)` after whitespace stripping. -/
def pyIntCore (l : List Char) : Option Int :=
  match l with
  | '-' :: rest => (parseNatDigits rest).map (fun n => -(n : Int))
  | '+' :: rest => (parseNatDigits rest).map (fun n => (n : Int))
  | _ => (parseNatDigits l).map (fun n => (n : Int))

/-- Strip leading and trailing Python whitespace from a character list. -/
def stripWs (l : List Char) : List Char :=
  ((l.dropWhile pyWs).reverse.dropWhile pyWs).reverse

/-- Python `int(str)` on ASCII decimal strings: optional surrounding
whitespace, optional sign, at least one digit. `ValueError` is `none`. -/
def pyInt (s : String) : Option Int :=
  pyIntCore (stripWs s.data)

/-- Python list indexing `xs[i]`: non-negative indices from the front,
negative indices from the back; `IndexError` is `none`. -/
def pyIndex (xs : List PyVal) (i : Int) : Option PyVal :=
  if 0 ≤ i then xs.get? i.toNat
  else if (-i).toNat ≤ xs.length then xs.get? (xs.length - (-i).toNat)
  else Option.none

/-- Python `dict.get(key)` on a string-keyed mapping of `PyVal`s: the stored
value, or `PyVal.none` when the key is absent. -/
def dictGetVal : List (String × PyVal) → String → PyVal
  | [], _ => PyVal.none
  | p :: rest, k => if p.1 == k then p.2 else dictGetVal rest k

/-- The loop body of `get_nested`, recursing on the remaining path segments.
Mirrors the source: at each segment, a non-container returns `None`; a list
indexes via `int(key)` catching `ValueError`/`IndexError`; a dict uses
`.get` followed by the explicit `None` check. -/
def getNestedAux : PyVal → List String → PyVal
  | cur, [] => cur
  | PyVal.dict kvs, k :: rest =>
    match dictGetVal kvs k with
    | PyVal.none => PyVal.none
    | v => getNestedAux v rest
  | PyVal.list xs, k :: rest =>
    match pyInt k with
    | Option.none => PyVal.none
    | some i =>
      match pyIndex xs i with
      | Option.none => PyVal.none
      | some v => getNestedAux v rest
  | _, _ :: _ => PyVal.none

/-- Accumulating splitter for `key_path.split(".")`: `cur` holds the
reversed characters of the segment being built. -/
def splitDotAux (cur : List Char) : List Char → List String
  | [] => [String.mk cur.reverse]
  | c :: rest =>
    if c = '.' then String.mk cur.reverse :: splitDotAux [] rest
    else splitDotAux (c :: cur) rest

/-- Python `key_path.split(".")`: always at least one segment (the empty
string splits to one empty segment). -/
def splitDot (s : String) : List String :=
  splitDotAux [] s.data

/-- `get_nested(obj, key_path)`: walk a dotted path through nested
dicts/lists, returning `PyVal.none` on any absence. -/
def get_nested (obj : PyVal) (key_path : String) : PyVal :=
  getNestedAux obj (splitDot key_path)

/-- `values_match(a, b)`: compare two floats with 0.1 percent relative
tolerance; at `b == 0` only exact zero matches. -/
def values_match (a b : ℚ) : Bool :=
  if b = 0 then decide (a = 0) else decide (|a - b| ≤ |b| * 0.001)

/-- Mantissa/exponent parsing of Python `float(str)` after whitespace
stripping (ASCII decimal literals; `inf`/`nan`/underscores are outside the
modelled fragment, which covers all values the checker handles). -/
def pyFloatCore (l : List Char) : Option ℚ :=
  let sl : ℚ × List Char :=
    match l with
    | '-' :: rest => (-1, rest)
    | '+' :: rest => (1, rest)
    | _ => (1, l)
  let intD := sl.2.takeWhile Char.isDigit
  let r1 := sl.2.drop intD.length
  let fr : List Char × List Char :=
    match r1 with
    | '.' :: rest => (rest.takeWhile Char.isDigit, rest.drop (rest.takeWhile Char.isDigit).length)
    | _ => ([], r1)
  if intD.length + fr.1.length = 0 then Option.none
  else
    let mant : ℚ := sl.1 * ((digitsVal intD : ℚ) + (digitsVal fr.1 : ℚ) / (10 ^ fr.1.length : ℚ))
    match fr.2 with
    | [] => some mant
    | e :: rest =>
      if e = 'e' ∨ e = 'E' then
        let er : Bool × List Char :=
          match rest with
          | '-' :: rr => (true, rr)
          | '+' :: rr => (false, rr)
          | _ => (false, rest)
        let expD := er.2.takeWhile Char.isDigit
        if expD = [] ∨ er.2.drop expD.length ≠ [] then Option.none
        else some (if er.1 then mant / 10 ^ digitsVal expD else mant * 10 ^ digitsVal expD)
      else Option.none

/-- Python `float(str)` on ASCII decimal literals; `ValueError` is `none`. -/
def pyFloat (s : String) : Option ℚ :=
  pyFloatCore (stripWs s.data)

/-- Python `float(value)` coercion as applied to a resolved config value:
numbers and booleans coerce, strings go through `float(str)`, and lists,
dicts and `None` raise (`none`). -/
def pyFloatCoerce : PyVal → Option ℚ
  | PyVal.num q => some q
  | PyVal.bool b => some (if b then 1 else 0)
  | PyVal.str s => pyFloat s
  | _ => Option.none

/-- Case-insensitive prefix test: does `s` start with the (lowercase)
pattern `p`, comparing lowered characters? Models `re.IGNORECASE` on the
ASCII literal part of the tag pattern. -/
def ciStarts : List Char → List Char → Bool
  | [], _ => true
  | _ :: _, [] => false
  | p :: ps, c :: cs => p == c.toLower && ciStarts ps cs

/-- Length of the segment up to and including the first unquoted closing
angle bracket, or `none` when the input has no closing bracket: the tail of
the regular expression for a tag, where the character class excludes the
closing bracket so the match stops at the first one. -/
def takeThroughGt : List Char → Option ℕ
  | [] => Option.none
  | c :: rest => if c = '>' then some 1 else (takeThroughGt rest).map (· + 1)

/-- Length of a match of the input-tag pattern anchored at the head of `s`:
the literal tag opener (case-insensitively), at least one whitespace
character, then everything through the first closing bracket. -/
def inputTagLen (s : List Char) : Option ℕ :=
  if ciStarts ['<', 'i', 'n', 'p', 'u', 't'] s then
    let r := s.drop 6
    let w := (r.takeWhile pyWs).length
    if w = 0 then Option.none
    else (takeThroughGt (r.drop w)).map (fun k => 6 + w + k)
  else Option.none

/-- Scanner loop for the tag matches, structurally recursive on a fuel
bound. A successful match consumes at least one character (the pattern
requires the opening bracket) and a failure advances one position, so fuel
equal to the input length always suffices. -/
def findInputTagsFuel : ℕ → List Char → List (List Char)
  | 0, _ => []
  | _, [] => []
  | fuel + 1, c :: rest =>
    match inputTagLen (c :: rest) with
    | some n => (c :: rest).take n :: findInputTagsFuel fuel ((c :: rest).drop n)
    | Option.none => findInputTagsFuel fuel rest

/-- All non-overlapping, leftmost-first matches of the input-tag pattern,
as `re.finditer` yields them. -/
def findInputTags (s : List Char) : List (List Char) :=
  findInputTagsFuel s.length s

/-- First match of an attribute pattern anchored at the head of `s`: the
literal `pat` (attribute name, equals sign, opening quote), then at least one
non-quote character, then the closing quote; returns the quoted text. -/
def attrAt (pat : List Char) (s : List Char) : Option (List Char) :=
  if s.take pat.length = pat then
    let afterP := s.drop pat.length
    let run := afterP.takeWhile (fun c => c ≠ '"')
    if run.length = 0 then Option.none
    else
      match afterP.drop run.length with
      | '"' :: _ => some run
      | _ => Option.none
  else Option.none

/-- Leftmost match of an attribute pattern anywhere in `s` (`re.search`). -/
def searchAttr (pat : List Char) : List Char → Option (List Char)
  | [] => Option.none
  | c :: rest =>
    match attrAt pat (c :: rest) with
    | some r => some r
    | Option.none => searchAttr pat rest

/-- The quoted-id attribute pattern. -/
def idAttrPat : List Char := ['i', 'd', '=', '"']

/-- The quoted-value attribute pattern. -/
def valueAttrPat : List Char := ['v', 'a', 'l', 'u', 'e', '=', '"']

/-- The per-tag body of `extract_html_defaults`: when both attributes are
found and the value text parses as a float, yield the id/value pair; a
missing attribute or a non-numeric value yields nothing. -/
def tagEntry (tag : List Char) : Option (String × ℚ) :=
  match searchAttr idAttrPat tag, searchAttr valueAttrPat tag with
  | some i, some v =>
    match pyFloat (String.mk v) with
    | some q => some (String.mk i, q)
    | Option.none => Option.none
  | _, _ => Option.none

/-- Python dict assignment `d[k] = v`: overwrite in place when the key is
present, else append. -/
def dictInsert (d : List (String × ℚ)) (k : String) (v : ℚ) : List (String × ℚ) :=
  if d.any (fun p => p.1 = k) then d.map (fun p => if p.1 = k then (k, v) else p)
  else d ++ [(k, v)]

/-- Python dict lookup on the association lists built by `dictInsert`
(keys are unique, so first match is the match). -/
def dictLookup : List (String × ℚ) → String → Option ℚ
  | [], _ => Option.none
  | p :: rest, k => if p.1 = k then some p.2 else dictLookup rest k

/-- `extract_html_defaults(html)`: scan the markup for input tags and build
the id-to-default mapping, later occurrences overwriting earlier ones. -/
def extract_html_defaults (html : String) : List (String × ℚ) :=
  (findInputTags html.data).foldl
    (fun d tag =>
      match tagEntry tag with
      | some p => dictInsert d p.1 p.2
      | Option.none => d)
    []

/-- `VALUE_MAP`: the direct HTML-id to export-key-path registry, in source
order. -/
def VALUE_MAP : List (String × String) :=
  [("power-base", "powerGrid.basePowerBudget"),
   ("tower-power-common", "powerGrid.towerPower.common"),
   ("tower-power-rare", "powerGrid.towerPower.rare"),
   ("tower-power-epic", "powerGrid.towerPower.epic"),
   ("tower-power-legendary", "powerGrid.towerPower.legendary"),
   ("threat-hp-scale", "threatLevel.healthScaling"),
   ("threat-speed-scale", "threatLevel.speedScaling"),
   ("threat-dmg-scale", "threatLevel.damageScaling"),
   ("cyber-hp", "bosses.cyberboss.baseHealth"),
   ("zeroday-hp", "zeroDay.baseHealth"),
   ("zeroday-speed", "zeroDay.speed"),
   ("zeroday-drain", "zeroDay.efficiencyDrainRate"),
   ("zeroday-min-waves", "zeroDay.minWavesBeforeSpawn"),
   ("zeroday-hash", "zeroDay.defeatHashBonus"),
   ("zeroday-restore", "zeroDay.defeatEfficiencyRestore"),
   ("hash-base", "hashEconomy.baseHashPerSecond"),
   ("hash-cpu-mult", "hashEconomy.cpuLevelScaling"),
   ("offline-max-hours", "hashEconomy.maxOfflineHours"),
   ("proto-range-mult", "protocolScaling.rangePerLevel"),
   ("proto-fire-mult", "protocolScaling.fireRatePerLevel"),
   ("comp-max-level", "components.maxLevel"),
   ("comp-cost-psu", "components.baseCosts.psu"),
   ("comp-cost-ram", "components.baseCosts.ram"),
   ("comp-cost-gpu", "components.baseCosts.gpu"),
   ("comp-cost-cache", "components.baseCosts.cache"),
   ("comp-cost-storage", "components.baseCosts.storage"),
   ("comp-cost-expansion", "components.baseCosts.expansion"),
   ("comp-cost-network", "components.baseCosts.network"),
   ("comp-cost-io", "components.baseCosts.io"),
   ("comp-cost-cpu", "components.baseCosts.cpu"),
   ("eff-leak-interval", "efficiency.leakDecayInterval"),
   ("eff-warning", "efficiency.warningThreshold")]

/-- `TRANSFORMS`: the transformed registry, in source order; every entry
rescales the whole-number-percentage web value by dividing by 100. -/
def TRANSFORMS : List (String × String × (ℚ → ℚ)) :=
  [("offline-rate", "hashEconomy.offlineEarningsRate", fun v => v / 100),
   ("cyber-phase2", "bosses.cyberboss.phase2Threshold", fun v => v / 100),
   ("cyber-phase3", "bosses.cyberboss.phase3Threshold", fun v => v / 100),
   ("cyber-phase4", "bosses.cyberboss.phase4Threshold", fun v => v / 100)]

/-- Strict lexicographic order on character lists by code point, as Python
compares strings. -/
def charListLt : List Char → List Char → Bool
  | [], [] => false
  | [], _ :: _ => true
  | _ :: _, [] => false
  | a :: as, b :: bs => decide (a < b) || (a == b && charListLt as bs)

/-- Non-strict string order used by the sort. -/
def strLe (a b : String) : Bool :=
  a == b || charListLt a.data b.data

/-- Insert a keyed pair into a key-sorted list. -/
def insertByKey {α : Type} (p : String × α) : List (String × α) → List (String × α)
  | [] => [p]
  | q :: rest => if strLe p.1 q.1 then p :: q :: rest else q :: insertByKey p rest

/-- `sorted(d.items())`: iterate a registry table in ascending key order. -/
def sortByKey {α : Type} (l : List (String × α)) : List (String × α) :=
  l.foldr insertByKey []

/-- Are the keys of consecutive entries in strictly ascending lexicographic
order (by code point)? -/
def keysSortedStrict {α : Type} : List (String × α) → Bool
  | [] => true
  | [_] => true
  | p :: q :: rest => charListLt p.1.data q.1.data && keysSortedStrict (q :: rest)

/-- Does a `PyVal` carry the absence signal (Python `None`)? -/
def isAbsent : PyVal → Bool
  | PyVal.none => true
  | _ => false

/-- The three counters accumulated by `main`. -/
structure Counts where
  matched : ℕ
  mismatches : ℕ
  missing : ℕ
deriving DecidableEq

/-- Per-entry report lines emitted by `main` (content abstracted to the
data each line carries; header and summary lines are not per-entry). -/
inductive Event where
  | skipHtml (htmlId : String)
  | skipConfig (htmlId : String) (configPath : String)
  | mismatchDirect (htmlId : String) (webVal configVal : ℚ) (configPath : String)
  | mismatchTransformed (htmlId : String) (webVal transformedVal configVal : ℚ)
      (configPath : String)
deriving DecidableEq

/-- One iteration of the direct-mapping loop of `main`: skip (with a SKIP
line) when either side is absent, else coerce the config value to float
(which can raise, modelled as `Option.none`) and classify via
`values_match`. -/
def directStep (web : List (String × ℚ)) (config : PyVal) (acc : Counts × List Event)
    (entry : String × String) : Option (Counts × List Event) :=
  match dictLookup web entry.1 with
  | Option.none =>
    some ({ acc.1 with missing := acc.1.missing + 1 }, acc.2 ++ [Event.skipHtml entry.1])
  | some webVal =>
    let cv := get_nested config entry.2
    if isAbsent cv then
      some ({ acc.1 with missing := acc.1.missing + 1 },
        acc.2 ++ [Event.skipConfig entry.1 entry.2])
    else
      match pyFloatCoerce cv with
      | Option.none => Option.none
      | some cq =>
        if values_match webVal cq then
          some ({ acc.1 with matched := acc.1.matched + 1 }, acc.2)
        else
          some ({ acc.1 with mismatches := acc.1.mismatches + 1 },
            acc.2 ++ [Event.mismatchDirect entry.1 webVal cq entry.2])

/-- One iteration of the transformed-mapping loop of `main`: skip silently
(no per-entry line) when either side is absent, else apply the entry's
transform to the web value, coerce the config value and classify. -/
def transformedStep (web : List (String × ℚ)) (config : PyVal) (acc : Counts × List Event)
    (entry : String × String × (ℚ → ℚ)) : Option (Counts × List Event) :=
  match dictLookup web entry.1 with
  | Option.none => some ({ acc.1 with missing := acc.1.missing + 1 }, acc.2)
  | some webVal =>
    let cv := get_nested config entry.2.1
    if isAbsent cv then some ({ acc.1 with missing := acc.1.missing + 1 }, acc.2)
    else
      match pyFloatCoerce cv with
      | Option.none => Option.none
      | some cq =>
        if values_match (entry.2.2 webVal) cq then
          some ({ acc.1 with matched := acc.1.matched + 1 }, acc.2)
        else
          some ({ acc.1 with mismatches := acc.1.mismatches + 1 },
            acc.2 ++ [Event.mismatchTransformed entry.1 webVal (entry.2.2 webVal) cq entry.2.1])

/-- Run fallible per-entry steps over a list, stopping with `none` when a
step raises: the loop bodies of `main` under the exception model. -/
def foldSteps {α σ : Type} (f : σ → α → Option σ) : σ → List α → Option σ
  | s, [] => some s
  | s, a :: l =>
    match f s a with
    | some s2 => foldSteps f s2 l
    | Option.none => Option.none

/-- The checking phase of `main` after both inputs are loaded: extract the
web defaults, then run the direct loop and the transformed loop, each over
its registry sorted by identifier. `Option.none` models an uncaught
exception. -/
def runChecks (html : String) (config : PyVal) : Option (Counts × List Event) :=
  let web := extract_html_defaults html
  match foldSteps (directStep web config) (⟨0, 0, 0⟩, []) (sortByKey VALUE_MAP) with
  | Option.none => Option.none
  | some acc1 => foldSteps (transformedStep web config) acc1 (sortByKey TRANSFORMS)

/-- Outcome of a whole invocation of `main`. -/
inductive RunResult where
  | missingHtml
  | missingJson
  | crashed
  | finished (counts : Counts) (events : List Event) (code : ℕ)

/-- `main`: fail fast with exit 1 when either input file is absent, else
run the checks and exit 1 exactly when some mismatch was counted. -/
def main_run (htmlExists jsonExists : Bool) (html : String) (config : PyVal) : RunResult :=
  if htmlExists = false then RunResult.missingHtml
  else if jsonExists = false then RunResult.missingJson
  else
    match runChecks html config with
    | Option.none => RunResult.crashed
    | some acc =>
      RunResult.finished acc.1 acc.2 (if 0 < acc.1.mismatches then 1 else 0)

/-- The argument passed to `sys.exit`, when `main` reaches one: a crashed
run never calls `sys.exit`. -/
def exitCode : RunResult → Option ℕ
  | RunResult.missingHtml => some 1
  | RunResult.missingJson => some 1
  | RunResult.crashed => Option.none
  | RunResult.finished _ _ c => some c

/-- The registry paths resolved against the config during a full run. -/
def registryPaths : List String :=
  (sortByKey VALUE_MAP).map Prod.snd ++ (sortByKey TRANSFORMS).map (fun e => e.2.1)


/-- Is the value a container (dict or list) that path resolution can walk
into? -/
def isContainer : PyVal → Bool
  | PyVal.dict _ => true
  | PyVal.list _ => true
  | _ => false

/-- The example tree of the path-resolution round-trip property. -/
def sampleTree : PyVal :=
  PyVal.dict [("a", PyVal.dict [("b", PyVal.list [PyVal.num 1, PyVal.num 2, PyVal.num 3])])]

theorem dictGetVal_not_mem (kvs : List (String × PyVal)) (k : String)
    (h : ∀ p ∈ kvs, p.1 ≠ k) : dictGetVal kvs k = PyVal.none := by
  induction kvs with
  | nil => rfl
  | cons p rest ih =>
    have hp : p.1 ≠ k := h p (by simp)
    have hr : ∀ q ∈ rest, q.1 ≠ k := fun q hq => h q (by simp [hq])
    simp [dictGetVal, hp, ih hr]

theorem getNestedAux_dict_none (kvs : List (String × PyVal)) (k : String)
    (rest : List String) (h : dictGetVal kvs k = PyVal.none) :
    getNestedAux (PyVal.dict kvs) (k :: rest) = PyVal.none := by
  simp only [getNestedAux, h]

/-- C3: `get_nested` is total and signals absence rather than raising: at a
mapping whose keys miss the segment, at a sequence whose segment does not
parse as an integer, at a sequence whose parsed index is out of bounds, and
at any non-container node with segments remaining, it returns `PyVal.none`;
on the round-trip example tree, the path a.b.1 resolves to 2 while a.b.9
and a.c resolve to absence. (Totality holds by construction: the embedding
is a Lean function defined on all trees and paths.) -/
theorem get_nested_absence_spec :
    (∀ (kvs : List (String × PyVal)) (k : String) (rest : List String),
      (∀ p ∈ kvs, p.1 ≠ k) → getNestedAux (PyVal.dict kvs) (k :: rest) = PyVal.none)
    ∧ (∀ (xs : List PyVal) (k : String) (rest : List String),
      pyInt k = Option.none → getNestedAux (PyVal.list xs) (k :: rest) = PyVal.none)
    ∧ (∀ (xs : List PyVal) (k : String) (i : Int) (rest : List String),
      pyInt k = some i → pyIndex xs i = Option.none →
      getNestedAux (PyVal.list xs) (k :: rest) = PyVal.none)
    ∧ (∀ (cur : PyVal) (k : String) (rest : List String),
      isContainer cur = false → getNestedAux cur (k :: rest) = PyVal.none)
    ∧ get_nested sampleTree "a.b.1" = PyVal.num 2
    ∧ get_nested sampleTree "a.b.9" = PyVal.none
    ∧ get_nested sampleTree "a.c" = PyVal.none := by
  refine ⟨?_, ?_, ?_, ?_, by rfl, by rfl, by rfl⟩
  · intro kvs k rest h
    exact getNestedAux_dict_none kvs k rest (dictGetVal_not_mem kvs k h)
  · intro xs k rest h
    simp only [getNestedAux, h]
  · intro xs k i rest h1 h2
    simp only [getNestedAux, h1, h2]
  · intro cur k rest h
    cases cur <;> simp_all [isContainer, getNestedAux]

/-- Witness for the absence cases of C3 at concrete inputs. -/
theorem get_nested_absence_spec_witness :
    getNestedAux (PyVal.dict [("x", PyVal.num 1)]) ("y" :: []) = PyVal.none
    ∧ getNestedAux (PyVal.list [PyVal.num 1]) ("z" :: []) = PyVal.none
    ∧ getNestedAux (PyVal.list [PyVal.num 1]) ("7" :: []) = PyVal.none
    ∧ getNestedAux (PyVal.num 5) ("a" :: []) = PyVal.none := by
  refine ⟨get_nested_absence_spec.1 _ _ _ ?_,
    get_nested_absence_spec.2.1 _ _ _ ?_,
    get_nested_absence_spec.2.2.1 _ "7" 7 _ ?_ ?_,
    get_nested_absence_spec.2.2.2.1 _ _ _ ?_⟩
  · intro p hp
    simp at hp
    simp [hp]
  · rfl
  · rfl
  · rfl
  · rfl

/-- C5 counterexample: a segment denoting the negative integer -1 does not
yield the absence signal at a sequence node; it selects the last element
(Python negative indexing), contradicting the claim that sequence segments
are interpreted as non-negative indices only. -/
theorem get_nested_negative_index_counterexample :
    get_nested (PyVal.dict [("a", PyVal.list [PyVal.num 1, PyVal.num 2, PyVal.num 3])]) "a.-1"
      = PyVal.num 3
    ∧ PyVal.num 3 ≠ PyVal.none := by
  exact ⟨by rfl, fun h => PyVal.noConfusion h⟩

/-- C5 amended: at a sequence node of length n, a segment denoting a
negative integer i selects the element at position n - (-i) whenever
-i ≤ n (indexing from the back), and yields the absence signal only when
the negative index is out of bounds (-i exceeds n). -/
theorem get_nested_negative_index_amended :
    ∀ (xs : List PyVal) (k : String) (i : Int) (rest : List String),
      pyInt k = some i → i < 0 →
      (((-i).toNat ≤ xs.length →
        ∃ v, xs.get? (xs.length - (-i).toNat) = some v ∧
          getNestedAux (PyVal.list xs) (k :: rest) = getNestedAux v rest)
      ∧ (xs.length < (-i).toNat →
        getNestedAux (PyVal.list xs) (k :: rest) = PyVal.none)) := by
  intro xs k i rest hk hi
  have hnotle : ¬(0 ≤ i) := by omega
  constructor
  · intro hle
    have hpos : 0 < (-i).toNat := by omega
    have hidx : xs.length - (-i).toNat < xs.length := by omega
    refine ⟨xs.get ⟨xs.length - (-i).toNat, hidx⟩, List.get?_eq_get hidx, ?_⟩
    simp only [getNestedAux, hk, pyIndex, if_neg hnotle, if_pos hle,
      List.get?_eq_get hidx]
  · intro hgt
    have : ¬((-i).toNat ≤ xs.length) := by omega
    simp only [getNestedAux, hk, pyIndex, if_neg hnotle, if_neg this]

/-- Witness for C5 amended: the segment -1 on a three-element sequence
resolves to the third element. -/
theorem get_nested_negative_index_amended_witness :
    getNestedAux (PyVal.list [PyVal.num 1, PyVal.num 2, PyVal.num 3]) ("-1" :: [])
      = PyVal.num 3 := by
  obtain ⟨v, hv, he⟩ :=
    (get_nested_negative_index_amended [PyVal.num 1, PyVal.num 2, PyVal.num 3]
      "-1" (-1) [] (by rfl) (by norm_num)).1 (by norm_num)
  have h3 : some (PyVal.num 3) = some v := hv
  injection h3 with h4
  rw [he, ← h4]
  rfl

/-- C10: a null stored at the addressed key is indistinguishable from an
absent key at the resolver interface: whenever `dict.get` yields the
absence signal (missing key or stored null alike) resolution returns
absence; a stored null and a missing key give the identical result on the
example tree; and a direct-mapping entry whose config path resolves to
absence is classified as a skip (with a SKIP line), never compared and
never counted as a mismatch. -/
theorem null_indistinguishable_spec :
    (∀ (kvs : List (String × PyVal)) (k : String) (rest : List String),
      dictGetVal kvs k = PyVal.none →
      getNestedAux (PyVal.dict kvs) (k :: rest) = PyVal.none)
    ∧ get_nested (PyVal.dict [("a", PyVal.none)]) "a" = PyVal.none
    ∧ get_nested (PyVal.dict []) "a" = PyVal.none
    ∧ (∀ (web : List (String × ℚ)) (config : PyVal) (acc : Counts × List Event)
        (htmlId configPath : String) (wv : ℚ),
      dictLookup web htmlId = some wv →
      get_nested config configPath = PyVal.none →
      directStep web config acc (htmlId, configPath) =
        some ({ acc.1 with missing := acc.1.missing + 1 },
          acc.2 ++ [Event.skipConfig htmlId configPath])) := by
  refine ⟨?_, by rfl, by rfl, ?_⟩
  · intro kvs k rest h
    exact getNestedAux_dict_none kvs k rest h
  · intro web config acc htmlId configPath wv h1 h2
    simp only [directStep, h1, h2, isAbsent, if_true]

/-- Witness for C10 at concrete inputs: a stored null, and a skip-classified
direct entry whose config path resolves to absence. -/
theorem null_indistinguishable_spec_witness :
    getNestedAux (PyVal.dict [("k", PyVal.none)]) ("k" :: []) = PyVal.none
    ∧ directStep [("power-base", 100)] (PyVal.dict []) (⟨0, 0, 0⟩, [])
        ("power-base", "powerGrid.basePowerBudget") =
      some (⟨0, 0, 1⟩, [Event.skipConfig "power-base" "powerGrid.basePowerBudget"]) := by
  constructor
  · exact null_indistinguishable_spec.1 [("k", PyVal.none)] "k" [] (by rfl)
  · exact null_indistinguishable_spec.2.2.2 [("power-base", 100)] (PyVal.dict [])
      (⟨0, 0, 0⟩, []) "power-base" "powerGrid.basePowerBudget" 100 (by rfl) (by rfl)

/-- C1: `values_match(observed, reference)` holds exactly when the reference
is zero and the observed value is exactly zero, or the reference is nonzero
and the observed value lies within the inclusive relative band of 0.1
percent around it; at reference 100 the boundary value 100.1 matches while
100.2 does not, and 0.0001 does not match a zero reference. -/
theorem values_match_spec :
    (∀ a b : ℚ, values_match a b = true ↔
      ((b = 0 ∧ a = 0) ∨ (b ≠ 0 ∧ |a - b| ≤ |b| * 0.001)))
    ∧ values_match 100.1 100 = true
    ∧ values_match 100.2 100 = false
    ∧ values_match 0.0001 0 = false := by
  refine ⟨?_, by norm_num [values_match, abs_le], by norm_num [values_match, lt_abs],
    by norm_num [values_match]⟩
  intro a b
  by_cases hb : b = 0 <;> simp [values_match, hb]

/-- C2: the exit code is 0 exactly when both input documents exist and the
finished run counted no mismatch (skips included), and 1 exactly when a
document is missing or the finished run counted at least one mismatch; the
code depends only on the mismatch counter, never on the skip counter. (A
crashed run never reaches `sys.exit` and has no code here.) -/
theorem main_exit_code_spec :
    ∀ (he je : Bool) (html : String) (config : PyVal),
      (exitCode (main_run he je html config) = some 0 ↔
        (he = true ∧ je = true ∧
          ∃ acc, runChecks html config = some acc ∧ acc.1.mismatches = 0))
      ∧ (exitCode (main_run he je html config) = some 1 ↔
        (he = false ∨ je = false ∨
          ∃ acc, runChecks html config = some acc ∧ 0 < acc.1.mismatches)) := by
  intro he je html config
  cases he with
  | false => simp [main_run, exitCode]
  | true =>
    cases je with
    | false => simp [main_run, exitCode]
    | true =>
      simp only [main_run]
      cases hr : runChecks html config with
      | none => simp [exitCode, hr]
      | some acc =>
        by_cases hm : 0 < acc.1.mismatches
        · simp [exitCode, hr, hm]
          omega
        · simp [exitCode, hr, hm]
          omega

/-- Witness for C2 at a concrete input: a missing markup document exits
with code 1. -/
theorem main_exit_code_spec_witness :
    exitCode (main_run false true "" (PyVal.num 0)) = some 1 :=
  (main_exit_code_spec false true "" (PyVal.num 0)).2.mpr (Or.inl rfl)

/-- C8: the checker is deterministic — equal input documents give the
identical run result (the embedding is a pure function of its inputs) —
and both registries are iterated in strictly ascending lexicographic order
of identifier (by code point, as Python compares strings). -/
theorem determinism_and_order_spec :
    (∀ (he je : Bool) (h1 h2 : String) (c1 c2 : PyVal),
      h1 = h2 → c1 = c2 → main_run he je h1 c1 = main_run he je h2 c2)
    ∧ keysSortedStrict (sortByKey VALUE_MAP) = true
    ∧ keysSortedStrict (sortByKey TRANSFORMS) = true := by
  refine ⟨fun he je h1 h2 c1 c2 hh hc => by rw [hh, hc], by rfl, by rfl⟩

/-- Witness for C8: two runs on the identical concrete inputs coincide. -/
theorem determinism_and_order_spec_witness :
    main_run true true "" (PyVal.num 0) = main_run true true "" (PyVal.num 0) :=
  determinism_and_order_spec.1 true true "" "" (PyVal.num 0) (PyVal.num 0) rfl rfl

theorem insertByKey_length {α : Type} (p : String × α) (l : List (String × α)) :
    (insertByKey p l).length = l.length + 1 := by
  induction l with
  | nil => rfl
  | cons q rest ih =>
    simp only [insertByKey]
    split
    · simp
    · simp [ih]

theorem sortByKey_length {α : Type} (l : List (String × α)) :
    (sortByKey l).length = l.length := by
  induction l with
  | nil => rfl
  | cons p rest ih =>
    have ih2 : (List.foldr insertByKey [] rest).length = rest.length := ih
    simp [sortByKey, List.foldr_cons, insertByKey_length, ih2]

theorem foldSteps_sum {α σ : Type} (f : σ → α → Option σ) (g : σ → ℕ)
    (hstep : ∀ s a s2, f s a = some s2 → g s2 = g s + 1) :
    ∀ (l : List α) (s r : σ), foldSteps f s l = some r → g r = g s + l.length := by
  intro l
  induction l with
  | nil =>
    intro s r h
    simp only [foldSteps] at h
    injection h with h2
    rw [← h2]
    simp
  | cons a l ih =>
    intro s r h
    simp only [foldSteps] at h
    cases hf : f s a with
    | none =>
      simp only [hf] at h
      exact Option.noConfusion h
    | some s2 =>
      simp only [hf] at h
      rw [ih s2 r h, hstep s a s2 hf, List.length_cons]
      omega

theorem directStep_total (web : List (String × ℚ)) (config : PyVal)
    (acc s2 : Counts × List Event) (entry : String × String)
    (h : directStep web config acc entry = some s2) :
    s2.1.matched + s2.1.mismatches + s2.1.missing
      = acc.1.matched + acc.1.mismatches + acc.1.missing + 1 := by
  simp only [directStep] at h
  cases hl : dictLookup web entry.1 with
  | none =>
    simp only [hl] at h
    injection h with h2
    rw [← h2]
    simp
    omega
  | some wv =>
    simp only [hl] at h
    cases ha : isAbsent (get_nested config entry.2) with
    | true =>
      simp only [ha, if_true] at h
      injection h with h2
      rw [← h2]
      simp
      omega
    | false =>
      simp only [ha, Bool.false_eq_true, if_false] at h
      cases hc : pyFloatCoerce (get_nested config entry.2) with
      | none =>
        simp only [hc] at h
        exact Option.noConfusion h
      | some cq =>
        simp only [hc] at h
        cases hv : values_match wv cq with
        | true =>
          simp only [hv, if_true] at h
          injection h with h2
          rw [← h2]
          simp
          omega
        | false =>
          simp only [hv, Bool.false_eq_true, if_false] at h
          injection h with h2
          rw [← h2]
          simp
          omega

theorem transformedStep_total (web : List (String × ℚ)) (config : PyVal)
    (acc s2 : Counts × List Event) (entry : String × String × (ℚ → ℚ))
    (h : transformedStep web config acc entry = some s2) :
    s2.1.matched + s2.1.mismatches + s2.1.missing
      = acc.1.matched + acc.1.mismatches + acc.1.missing + 1 := by
  simp only [transformedStep] at h
  cases hl : dictLookup web entry.1 with
  | none =>
    simp only [hl] at h
    injection h with h2
    rw [← h2]
    simp
    omega
  | some wv =>
    simp only [hl] at h
    cases ha : isAbsent (get_nested config entry.2.1) with
    | true =>
      simp only [ha, if_true] at h
      injection h with h2
      rw [← h2]
      simp
      omega
    | false =>
      simp only [ha, Bool.false_eq_true, if_false] at h
      cases hc : pyFloatCoerce (get_nested config entry.2.1) with
      | none =>
        simp only [hc] at h
        exact Option.noConfusion h
      | some cq =>
        simp only [hc] at h
        cases hv : values_match (entry.2.2 wv) cq with
        | true =>
          simp only [hv, if_true] at h
          injection h with h2
          rw [← h2]
          simp
          omega
        | false =>
          simp only [hv, Bool.false_eq_true, if_false] at h
          injection h with h2
          rw [← h2]
          simp
          omega

/-- C9: every run that finishes classified each of the 36 registry entries
(32 direct, 4 transformed) into exactly one of the three counters, so at
the summary the counts add up to 36. -/
theorem counts_sum_spec :
    ∀ (html : String) (config : PyVal) (cnts : Counts) (evts : List Event),
      runChecks html config = some (cnts, evts) →
      cnts.matched + cnts.mismatches + cnts.missing = 36 := by
  intro html config cnts evts h
  simp only [runChecks] at h
  cases h1 : foldSteps (directStep (extract_html_defaults html) config)
      (⟨0, 0, 0⟩, []) (sortByKey VALUE_MAP) with
  | none =>
    simp only [h1] at h
    exact Option.noConfusion h
  | some acc1 =>
    simp only [h1] at h
    have g1 := foldSteps_sum _ (fun s => s.1.matched + s.1.mismatches + s.1.missing)
      (fun s a s2 hf => directStep_total _ _ _ _ _ hf) _ _ _ h1
    have g2 := foldSteps_sum _ (fun s => s.1.matched + s.1.mismatches + s.1.missing)
      (fun s a s2 hf => transformedStep_total _ _ _ _ _ hf) _ _ _ h
    rw [sortByKey_length] at g1 g2
    have e1 : VALUE_MAP.length = 32 := by rfl
    have e2 : TRANSFORMS.length = 4 := by rfl
    rw [e1] at g1
    rw [e2] at g2
    simp at g1 g2
    omega

/-- Witness for C9: a concrete finishing run whose counters add up to 36. -/
theorem counts_sum_spec_witness :
    (runChecks "" (PyVal.num 0)).map
      (fun r => r.1.matched + r.1.mismatches + r.1.missing) = some 36 := by
  have hs : (runChecks "" (PyVal.num 0)).isSome = true := by rfl
  cases h : runChecks "" (PyVal.num 0) with
  | none => rw [h] at hs; simp at hs
  | some r =>
    obtain ⟨cnts, evts⟩ := r
    have hm : (some (cnts, evts)).map
        (fun r => r.1.matched + r.1.mismatches + r.1.missing)
        = some (cnts.matched + cnts.mismatches + cnts.missing) := rfl
    rw [hm, counts_sum_spec "" (PyVal.num 0) cnts evts h]

theorem foldSteps_isSome {α σ : Type} (f : σ → α → Option σ) :
    ∀ (l : List α), (∀ (s : σ) (a : α), a ∈ l → (f s a).isSome = true) →
      ∀ s, (foldSteps f s l).isSome = true := by
  intro l
  induction l with
  | nil => intro _ s; rfl
  | cons a l ih =>
    intro hall s
    simp only [foldSteps]
    cases hf : f s a with
    | none =>
      have hsome := hall s a (by simp)
      rw [hf] at hsome
      simp at hsome
    | some s2 =>
      simp only [hf]
      exact ih (fun s b hb => hall s b (by simp [hb])) s2

theorem directStep_isSome (web : List (String × ℚ)) (config : PyVal)
    (acc : Counts × List Event) (entry : String × String)
    (h : (isAbsent (get_nested config entry.2)
          || (pyFloatCoerce (get_nested config entry.2)).isSome) = true) :
    (directStep web config acc entry).isSome = true := by
  simp only [directStep]
  cases hl : dictLookup web entry.1 with
  | none => rfl
  | some wv =>
    cases ha : isAbsent (get_nested config entry.2) with
    | true => simp [ha]
    | false =>
      rw [ha] at h
      simp only [Bool.false_or] at h
      cases hc : pyFloatCoerce (get_nested config entry.2) with
      | none => rw [hc] at h; simp at h
      | some cq =>
        simp only [ha, Bool.false_eq_true, if_false, hc]
        cases values_match wv cq <;> simp

theorem transformedStep_isSome (web : List (String × ℚ)) (config : PyVal)
    (acc : Counts × List Event) (entry : String × String × (ℚ → ℚ))
    (h : (isAbsent (get_nested config entry.2.1)
          || (pyFloatCoerce (get_nested config entry.2.1)).isSome) = true) :
    (transformedStep web config acc entry).isSome = true := by
  simp only [transformedStep]
  cases hl : dictLookup web entry.1 with
  | none => rfl
  | some wv =>
    cases ha : isAbsent (get_nested config entry.2.1) with
    | true => simp [ha]
    | false =>
      rw [ha] at h
      simp only [Bool.false_or] at h
      cases hc : pyFloatCoerce (get_nested config entry.2.1) with
      | none => rw [hc] at h; simp at h
      | some cq =>
        simp only [ha, Bool.false_eq_true, if_false, hc]
        cases values_match (entry.2.2 wv) cq <;> simp

/-- C4 counterexample: with both documents present, a well-formed markup
document and an export that is a nested structure of mappings carrying a
(non-numeric) string at a checked path, the run raises an uncaught
exception (the float coercion of the resolved config value fails), so the
full run does not complete. -/
theorem run_crash_counterexample :
    main_run true true "<input id=\"power-base\" value=\"100\">"
        (PyVal.dict [("powerGrid", PyVal.dict [("basePowerBudget", PyVal.str "oops")])])
      = RunResult.crashed := by rfl

/-- C4 amended: the run completes without an uncaught exception provided
every registry path resolves in the export to absence or to a value the
float coercion accepts (a number, a boolean, or a numeric string); a
non-numeric string or a container at a checked-and-compared path raises. -/
theorem run_no_crash_amended (html : String) (config : PyVal)
    (h : ∀ p ∈ registryPaths,
      (isAbsent (get_nested config p)
        || (pyFloatCoerce (get_nested config p)).isSome) = true) :
    (runChecks html config).isSome = true := by
  simp only [runChecks]
  have hd : ∀ (s : Counts × List Event) (a : String × String),
      a ∈ sortByKey VALUE_MAP →
      (directStep (extract_html_defaults html) config s a).isSome = true := by
    intro s a ha
    apply directStep_isSome
    apply h
    exact List.mem_append_left _ (List.mem_map_of_mem _ ha)
  have h1 := foldSteps_isSome _ _ hd (⟨0, 0, 0⟩, [])
  cases hf : foldSteps (directStep (extract_html_defaults html) config)
      (⟨0, 0, 0⟩, []) (sortByKey VALUE_MAP) with
  | none =>
    rw [hf] at h1
    simp at h1
  | some acc1 =>
    simp only [hf]
    have ht : ∀ (s : Counts × List Event) (a : String × String × (ℚ → ℚ)),
        a ∈ sortByKey TRANSFORMS →
        (transformedStep (extract_html_defaults html) config s a).isSome = true := by
      intro s a ha
      apply transformedStep_isSome
      apply h
      exact List.mem_append_right _ (List.mem_map_of_mem _ ha)
    exact foldSteps_isSome _ _ ht acc1

/-- Witness for C4 amended: a concrete run on an export where every
registry path resolves to absence finishes. -/
theorem run_no_crash_amended_witness :
    (runChecks "" (PyVal.num 0)).isSome = true :=
  run_no_crash_amended "" (PyVal.num 0) (by decide)

/-- C7: for a transformed-mapping entry with both sides present (and the
config side float-coercible), the entry's transform is applied to the web
value before the tolerance comparison and a passing comparison counts a
match; the concrete cyber-phase2 scenario (web 50, config 0.5, divide by
100) counts a match; absence of either side increments the skip counter and
appends no per-entry report line, while a direct-mapping skip does append a
SKIP line. -/
theorem transformed_check_spec :
    (∀ (web : List (String × ℚ)) (config : PyVal) (acc : Counts × List Event)
        (htmlId configPath : String) (f : ℚ → ℚ) (wv cq : ℚ),
      dictLookup web htmlId = some wv →
      isAbsent (get_nested config configPath) = false →
      pyFloatCoerce (get_nested config configPath) = some cq →
      values_match (f wv) cq = true →
      transformedStep web config acc (htmlId, configPath, f) =
        some ({ acc.1 with matched := acc.1.matched + 1 }, acc.2))
    ∧ (∀ (web : List (String × ℚ)) (config : PyVal) (acc : Counts × List Event)
        (htmlId configPath : String) (f : ℚ → ℚ),
      (dictLookup web htmlId = Option.none ∨ get_nested config configPath = PyVal.none) →
      transformedStep web config acc (htmlId, configPath, f) =
        some ({ acc.1 with missing := acc.1.missing + 1 }, acc.2))
    ∧ (∀ (web : List (String × ℚ)) (config : PyVal) (acc : Counts × List Event)
        (htmlId configPath : String),
      dictLookup web htmlId = Option.none →
      directStep web config acc (htmlId, configPath) =
        some ({ acc.1 with missing := acc.1.missing + 1 },
          acc.2 ++ [Event.skipHtml htmlId]))
    ∧ transformedStep [("cyber-phase2", 50)]
        (PyVal.dict [("bosses", PyVal.dict [("cyberboss",
          PyVal.dict [("phase2Threshold", PyVal.num 0.5)])])])
        (⟨0, 0, 0⟩, []) ("cyber-phase2", "bosses.cyberboss.phase2Threshold", fun v => v / 100)
      = some (⟨1, 0, 0⟩, []) := by
  have h1 : ∀ (web : List (String × ℚ)) (config : PyVal) (acc : Counts × List Event)
      (htmlId configPath : String) (f : ℚ → ℚ) (wv cq : ℚ),
      dictLookup web htmlId = some wv →
      isAbsent (get_nested config configPath) = false →
      pyFloatCoerce (get_nested config configPath) = some cq →
      values_match (f wv) cq = true →
      transformedStep web config acc (htmlId, configPath, f) =
        some ({ acc.1 with matched := acc.1.matched + 1 }, acc.2) := by
    intro web config acc htmlId configPath f wv cq hw ha hc hv
    simp only [transformedStep, hw, ha, Bool.false_eq_true, if_false, hc, hv, if_true]
  refine ⟨h1, ?_, ?_, ?_⟩
  · intro web config acc htmlId configPath f hor
    cases hor with
    | inl hw => simp only [transformedStep, hw]
    | inr hc =>
      cases hw : dictLookup web htmlId with
      | none => simp only [transformedStep, hw]
      | some wv => simp only [transformedStep, hw, hc, isAbsent, if_true]
  · intro web config acc htmlId configPath hw
    simp only [directStep, hw]
  · exact h1 [("cyber-phase2", 50)] _ (⟨0, 0, 0⟩, []) "cyber-phase2"
      "bosses.cyberboss.phase2Threshold" (fun v => v / 100) 50 0.5 rfl rfl rfl
      (by norm_num [values_match, abs_le])

/-- Witness for C7 at concrete inputs: a matching transformed entry, a
silent transformed skip, and a SKIP-line direct skip. -/
theorem transformed_check_spec_witness :
    transformedStep [("cyber-phase3", 30)]
        (PyVal.dict [("bosses", PyVal.dict [("cyberboss",
          PyVal.dict [("phase3Threshold", PyVal.num 0.3)])])])
        (⟨0, 0, 0⟩, []) ("cyber-phase3", "bosses.cyberboss.phase3Threshold", fun v => v / 100)
      = some (⟨1, 0, 0⟩, [])
    ∧ transformedStep [] (PyVal.num 0) (⟨0, 0, 0⟩, [])
        ("offline-rate", "hashEconomy.offlineEarningsRate", fun v => v / 100)
      = some (⟨0, 0, 1⟩, [])
    ∧ directStep [] (PyVal.num 0) (⟨0, 0, 0⟩, [])
        ("power-base", "powerGrid.basePowerBudget")
      = some (⟨0, 0, 1⟩, [Event.skipHtml "power-base"]) := by
  refine ⟨?_, ?_, ?_⟩
  · exact transformed_check_spec.1 _ _ _ _ _ _ 30 0.3 rfl rfl rfl
      (by norm_num [values_match, abs_le])
  · exact transformed_check_spec.2.1 _ _ _ _ _ _ (Or.inl rfl)
  · exact transformed_check_spec.2.2.1 _ _ _ _ _ rfl


theorem getLast?_cons_of_ne {α : Type} (a : α) (l : List α) (h : l ≠ []) :
    (a :: l).getLast? = l.getLast? := by
  cases l with
  | nil => exact absurd rfl h
  | cons b t => simp

theorem dictLookup_append (d l : List (String × ℚ)) (key : String) :
    dictLookup (d ++ l) key = (dictLookup d key).elim (dictLookup l key) some := by
  induction d with
  | nil => simp [dictLookup]
  | cons p rest ih =>
    by_cases hp : p.1 = key <;> simp [dictLookup, hp, ih]

theorem dictLookup_no_key (d : List (String × ℚ)) (k : String)
    (h : ∀ p ∈ d, p.1 ≠ k) : dictLookup d k = Option.none := by
  induction d with
  | nil => rfl
  | cons p rest ih =>
    have hp : p.1 ≠ k := h p (by simp)
    have hr : ∀ q ∈ rest, q.1 ≠ k := fun q hq => h q (by simp [hq])
    simp [dictLookup, hp, ih hr]

theorem dictLookup_map_replace_ne (d : List (String × ℚ)) (k key : String) (v : ℚ)
    (hne : key ≠ k) :
    dictLookup (d.map (fun p => if p.1 = k then (k, v) else p)) key
      = dictLookup d key := by
  induction d with
  | nil => rfl
  | cons p rest ih =>
    by_cases hp : p.1 = k
    · have hkk : k ≠ key := fun h => hne h.symm
      have hpk : p.1 ≠ key := by rw [hp]; exact hkk
      simp [List.map_cons, hp, dictLookup, hkk, hpk, ih]
    · by_cases hq : p.1 = key <;> simp [List.map_cons, hp, dictLookup, hq, ih, hne]

theorem dictLookup_map_replace_found (d : List (String × ℚ)) (k : String) (v : ℚ)
    (h : d.any (fun p => p.1 = k) = true) :
    dictLookup (d.map (fun p => if p.1 = k then (k, v) else p)) k = some v := by
  induction d with
  | nil => simp at h
  | cons p rest ih =>
    by_cases hp : p.1 = k
    · simp [List.map_cons, hp, dictLookup]
    · simp only [List.any_cons, decide_eq_true_eq, Bool.or_eq_true] at h
      rcases h with h | h
      · exact absurd h hp
      · simp [List.map_cons, hp, dictLookup, ih (by simpa using h)]

theorem dictLookup_insert (d : List (String × ℚ)) (k : String) (v : ℚ) (key : String) :
    dictLookup (dictInsert d k v) key =
      if key = k then some v else dictLookup d key := by
  unfold dictInsert
  cases hany : d.any (fun p => p.1 = k) with
  | true =>
    simp only [hany, if_true]
    by_cases hk : key = k
    · subst hk
      simp [dictLookup_map_replace_found d key v hany]
    · simp [hk, dictLookup_map_replace_ne d k key v hk]
  | false =>
    simp only [hany, Bool.false_eq_true, if_false]
    rw [dictLookup_append]
    have hno : ∀ p ∈ d, p.1 ≠ k := by
      intro p hp he
      have : d.any (fun p => p.1 = k) = true := by
        rw [List.any_eq_true]
        exact ⟨p, hp, by simp [he]⟩
      rw [hany] at this
      exact Bool.noConfusion this
    by_cases hk : key = k
    · subst hk
      rw [dictLookup_no_key d key hno]
      simp [dictLookup]
    · have hks : k ≠ key := fun h => hk h.symm
      cases hd : dictLookup d key with
      | none => simp [dictLookup, hk, hks]
      | some w => simp [hd, hk]

theorem dictLookup_foldl_insert (l : List (String × ℚ)) (d : List (String × ℚ))
    (key : String) :
    dictLookup (l.foldl (fun acc p => dictInsert acc p.1 p.2) d) key =
      ((l.filter (fun p => p.1 = key)).getLast?).elim (dictLookup d key)
        (fun p => some p.2) := by
  induction l generalizing d with
  | nil => simp
  | cons p l ih =>
    simp only [List.foldl_cons]
    rw [ih]
    cases hl : (l.filter (fun p => p.1 = key)).getLast? with
    | none =>
      have hfe : l.filter (fun p => p.1 = key) = [] := by
        rwa [List.getLast?_eq_none_iff] at hl
      by_cases hp : p.1 = key
      · simp only [Option.elim, dictLookup_insert]
        rw [if_pos hp.symm]
        simp [List.filter_cons, hp, hfe]
      · have hk : key ≠ p.1 := fun h => hp h.symm
        simp only [Option.elim, dictLookup_insert]
        rw [if_neg hk]
        simp [List.filter_cons, hp, hfe]
    | some q =>
      have hne : l.filter (fun p => p.1 = key) ≠ [] := by
        intro he
        rw [he] at hl
        exact Option.noConfusion hl
      by_cases hp : p.1 = key
      · have hfc : ((p :: l).filter (fun p => p.1 = key))
            = p :: (l.filter (fun p => p.1 = key)) := by
          simp [List.filter_cons, hp]
        rw [hfc, getLast?_cons_of_ne _ _ hne, hl]
        rfl
      · simp [List.filter_cons, hp, hl]

theorem extract_foldl (tags : List (List Char)) (d : List (String × ℚ)) :
    tags.foldl (fun d tag => match tagEntry tag with
      | some p => dictInsert d p.1 p.2
      | Option.none => d) d =
    (tags.filterMap tagEntry).foldl (fun d p => dictInsert d p.1 p.2) d := by
  induction tags generalizing d with
  | nil => rfl
  | cons t ts ih =>
    cases ht : tagEntry t with
    | none => simp [List.foldl_cons, List.filterMap_cons, ht, ih]
    | some p => simp [List.foldl_cons, List.filterMap_cons, ht, ih]

/-- C6: the extracted mapping sends identifier i to number x exactly when,
among the input-style tag matches of the document (in document order), the
last one yielding an entry with identifier i yields the value x — an entry
arises from a tag exactly when the tag carries a quoted id attribute and a
quoted value attribute whose text parses as a float (`tagEntry`); a tag
missing either attribute, or whose value text does not parse, contributes
no entry (and extraction is a total function: no error is raised). -/
theorem extract_html_defaults_spec :
    (∀ (html : String) (i : String) (x : ℚ),
      dictLookup (extract_html_defaults html) i = some x ↔
        (((findInputTags html.data).filterMap tagEntry).filter
          (fun p => p.1 = i)).getLast? = some (i, x))
    ∧ (∀ tag : List Char,
      searchAttr idAttrPat tag = Option.none ∨ searchAttr valueAttrPat tag = Option.none →
      tagEntry tag = Option.none)
    ∧ (∀ (tag : List Char) (v : List Char),
      searchAttr valueAttrPat tag = some v → pyFloat (String.mk v) = Option.none →
      tagEntry tag = Option.none) := by
  refine ⟨?_, ?_, ?_⟩
  · intro html i x
    unfold extract_html_defaults
    rw [extract_foldl, dictLookup_foldl_insert]
    cases hl : (((findInputTags html.data).filterMap tagEntry).filter
        (fun p => p.1 = i)).getLast? with
    | none => simp [dictLookup]
    | some q =>
      simp only [Option.elim]
      constructor
      · intro h
        injection h with h2
        have hqmem : q ∈ ((findInputTags html.data).filterMap tagEntry).filter
            (fun p => p.1 = i) := List.mem_of_getLast?_eq_some hl
        have hq1 : q.1 = i := by
          have := (List.mem_filter.mp hqmem).2
          simpa using this
        have hq : q = (i, x) := by
          cases q with
          | mk a b =>
            simp only at hq1 h2
            rw [hq1, h2]
        rw [hq]
      · intro h
        injection h with h2
        rw [h2]
  · intro tag hor
    unfold tagEntry
    cases hor with
    | inl hi => rw [hi]
    | inr hv =>
      rw [hv]
      cases searchAttr idAttrPat tag <;> rfl
  · intro tag v hv hf
    unfold tagEntry
    rw [hv]
    cases searchAttr idAttrPat tag with
    | none => rfl
    | some i => simp [hf]

/-- Witness for C6 at concrete tags: a tag without a value attribute and a
tag whose value text is non-numeric both contribute no entry. -/
theorem extract_html_defaults_spec_witness :
    tagEntry "<input id=\"a\">".data = Option.none
    ∧ tagEntry "<input id=\"a\" value=\"medium\">".data = Option.none := by
  constructor
  · exact extract_html_defaults_spec.2.1 _ (Or.inr rfl)
  · exact extract_html_defaults_spec.2.2 _ "medium".data rfl rfl
